import Mathlib

/-!
Verification development for the FirebaseClient repository.

The file shallowly embeds, in Lean 4, the parts of the code that the
testable properties talk about: the `ObjectWriter` / `UnityRange`
helpers, the synchronous boolean wrappers of `Firestore::Databases`,
the base64 blob conversion used by the blob upload/download paths, and
the asynchronous task-queue engine.  Machine floats appear only in
`UnityRange::val`, whose body is pure comparisons and assignments, so
floats are embedded as NaN, an infinity, or an exact finite rational,
with IEEE-754 comparison semantics.  Components of the repository
whose implementation files are not part of the sources at hand (the
queue engine, the base64 codec, the `FirestoreBase` request helpers)
are modelled from the design specification and carry a doc comment
saying so.
-/

/-! ## `UnityRange` (core/ObjectWriter.h) -/

/-- The values a C++ `float` can take, as observed by
`UnityRange::val`: NaN, an infinity, or a finite value.  The function
performs no arithmetic — only `<`/`>` comparisons against the literals
0 and 1, and returns its input — so a finite float is embedded as an
exact rational, and the IEEE-754 special values are explicit
constructors. -/
inductive CFloat
  | nan
  | posInf
  | negInf
  | finite (q : ℚ)
deriving DecidableEq

/-- IEEE-754 `<` on the embedded floats: every comparison involving
NaN is false. -/
def CFloat.lt : CFloat → CFloat → Bool
  | .nan, _ => false
  | _, .nan => false
  | .negInf, .negInf => false
  | .negInf, _ => true
  | _, .negInf => false
  | .posInf, _ => false
  | _, .posInf => true
  | .finite a, .finite b => decide (a < b)

/-- IEEE-754 `>`: `a > b` is `b < a`. -/
def CFloat.gt (a b : CFloat) : Bool := CFloat.lt b a

/-- IEEE-754 `==` on the embedded floats: NaN compares unequal to
everything, including itself. -/
def CFloat.beq : CFloat → CFloat → Bool
  | .nan, _ => false
  | _, .nan => false
  | .posInf, .posInf => true
  | .posInf, _ => false
  | .negInf, .negInf => true
  | .negInf, _ => false
  | .finite a, .finite b => decide (a = b)
  | _, _ => false

/-- IEEE-754 `<=` on the embedded floats (`<` or `==`); false whenever
NaN is involved. -/
def CFloat.le (a b : CFloat) : Bool := CFloat.lt a b || CFloat.beq a b

namespace firebase

/-- Embedding of `firebase::UnityRange::val` (core/ObjectWriter.h).
The C++ body is `if (value > 1) value = 1; else if (value < 0) value = 0;
return value;` over `float`, embedded over `CFloat` with IEEE
comparison semantics. -/
def UnityRange.val (value : CFloat) : CFloat :=
  if CFloat.gt value (CFloat.finite 1) then CFloat.finite 1
  else if CFloat.lt value (CFloat.finite 0) then CFloat.finite 0
  else value

end firebase

/-! ## `ObjectWriter::makeResourcePath` (core/ObjectWriter.h) -/

/-- Embedding of the `RESOURCE_PATH_BASE` macro. -/
def RESOURCE_PATH_BASE : String := "<resource_path>"

/-- Embedding of `ObjectWriter::makeResourcePath` (core/ObjectWriter.h).
Appending a single character in the C++ source (`full_path += '/'`) is
embedded as appending the one-character string. -/
def ObjectWriter.makeResourcePath (path : String) (toStr : Bool) : String :=
  let fp₀ : String := ""
  let fp₁ := if toStr then fp₀ ++ "\"" else fp₀
  let fp₂ := fp₁ ++ RESOURCE_PATH_BASE
  let fp₃ :=
    if path.length ≠ 0 then
      (if path.length ≠ 0 ∧ path.front ≠ '/' then fp₂ ++ "/" else fp₂) ++ path
    else fp₂
  if toStr then fp₃ ++ "\"" else fp₃

/-- The specification's description of `makeResourcePath`: the base and
the path concatenated, a `/` separator inserted exactly when the path is
non-empty and does not start with `/`, the whole wrapped in double
quotes exactly when `toStr` is set. -/
def ObjectWriter.makeResourcePathSpec (path : String) (toStr : Bool) : String :=
  (if toStr then "\"" else "") ++ RESOURCE_PATH_BASE ++
    (if path ≠ "" ∧ path.front ≠ '/' then "/" else "") ++ path ++
    (if toStr then "\"" else "")

/-! ## `Firestore::Databases` synchronous boolean wrappers
(src/firestore/Databases.h)

The wrappers delegate to the `FirestoreBase` helpers `eximDocs`,
`manageDatabase` and `databaseIndexManager`, whose implementation file
is not among the sources; each helper is therefore taken as an abstract
state transformer on the `AsyncResult` it is handed, parameterised by
the same trailing flags the wrappers pass in the source. -/

/-- Embedding of the error object held by an `AsyncResult`
(`lastError`); a default-constructed error has code `0`. -/
structure FirebaseError where
  code : Int := 0
  message : String := ""
deriving DecidableEq

/-- Embedding of `AsyncResult` as far as the synchronous wrappers
observe it: the `lastError` field read by `lastError.code()`. -/
structure AsyncResult where
  lastError : FirebaseError := {}
deriving DecidableEq

namespace Firestore

/-- Embedding of the `Firestore::firestore_database_mode` enum. -/
inductive DatabaseMode
  | createMode
  | deleteMode
  | getMode
  | listMode
  | patchMode
deriving DecidableEq

/-- Embedding of `Firestore::Databases::exportDocuments` (sync overload):
`AsyncResult result; eximDocs(aClient,&result,NULL,"",parent,options,false,false);
return result.lastError.code() == 0;`.  The abstract `eximDocs` takes
the `isImport` and `async` flags and the result it mutates. -/
def Databases.exportDocuments
    (eximDocs : Bool → Bool → AsyncResult → AsyncResult) : Bool :=
  let result : AsyncResult := {}
  let result := eximDocs false false result
  result.lastError.code == 0

/-- Embedding of `Firestore::Databases::importDocuments` (sync overload): passes
`isImport = true`, `async = false`. -/
def Databases.importDocuments
    (eximDocs : Bool → Bool → AsyncResult → AsyncResult) : Bool :=
  let result : AsyncResult := {}
  let result := eximDocs true false result
  result.lastError.code == 0

/-- Embedding of `Firestore::Databases::create` (sync overload): passes the
serialized database, empty etag/mask, the create mode and
`async = false` to `manageDatabase`. -/
def Databases.create
    (manageDatabase : String → String → DatabaseMode → Bool → AsyncResult → AsyncResult)
    (database : String) : Bool :=
  let result : AsyncResult := {}
  let result := manageDatabase database "" DatabaseMode.createMode false result
  result.lastError.code == 0

/-- Embedding of `Firestore::Databases::deleteDatabase` (sync overload). -/
def Databases.deleteDatabase
    (manageDatabase : String → String → DatabaseMode → Bool → AsyncResult → AsyncResult)
    (etag : String) : Bool :=
  let result : AsyncResult := {}
  let result := manageDatabase "" etag DatabaseMode.deleteMode false result
  result.lastError.code == 0

/-- Embedding of `Firestore::Databases::get` (sync overload). -/
def Databases.get
    (manageDatabase : String → String → DatabaseMode → Bool → AsyncResult → AsyncResult) : Bool :=
  let result : AsyncResult := {}
  let result := manageDatabase "" "" DatabaseMode.getMode false result
  result.lastError.code == 0

/-- Embedding of `Firestore::Databases::list` (sync overload). -/
def Databases.list
    (manageDatabase : String → String → DatabaseMode → Bool → AsyncResult → AsyncResult) : Bool :=
  let result : AsyncResult := {}
  let result := manageDatabase "" "" DatabaseMode.listMode false result
  result.lastError.code == 0

/-- Embedding of `Firestore::Databases::patch` (sync overload). -/
def Databases.patch
    (manageDatabase : String → String → DatabaseMode → Bool → AsyncResult → AsyncResult)
    (database updateMask : String) : Bool :=
  let result : AsyncResult := {}
  let result := manageDatabase database updateMask DatabaseMode.patchMode false result
  result.lastError.code == 0

/-- Embedding of `Firestore::Databases::Indexes::create` (sync overload): passes the
index definition, empty index id, `deleteMode = false`, `async = false`
to `databaseIndexManager`. -/
def Databases.Indexes.create
    (databaseIndexManager : String → String → Bool → Bool → AsyncResult → AsyncResult)
    (index : String) : Bool :=
  let result : AsyncResult := {}
  let result := databaseIndexManager index "" false false result
  result.lastError.code == 0

/-- Embedding of `Firestore::Databases::Indexes::deleteIndex` (sync overload): an
empty `Index("")` is constructed and passed with `deleteMode = true`. -/
def Databases.Indexes.deleteIndex
    (databaseIndexManager : String → String → Bool → Bool → AsyncResult → AsyncResult)
    (indexId : String) : Bool :=
  let result : AsyncResult := {}
  let result := databaseIndexManager "" indexId true false result
  result.lastError.code == 0

/-- Embedding of `Firestore::Databases::Indexes::get` (sync overload). -/
def Databases.Indexes.get
    (databaseIndexManager : String → String → Bool → Bool → AsyncResult → AsyncResult)
    (indexId : String) : Bool :=
  let result : AsyncResult := {}
  let result := databaseIndexManager "" indexId false false result
  result.lastError.code == 0

/-- Embedding of `Firestore::Databases::Indexes::list` (sync overload). -/
def Databases.Indexes.list
    (databaseIndexManager : String → String → Bool → Bool → AsyncResult → AsyncResult) : Bool :=
  let result : AsyncResult := {}
  let result := databaseIndexManager "" "" false false result
  result.lastError.code == 0

end Firestore

/-! ## Blob upload / download path (base64)

The repository documents the blob paths thus: on upload "the byte data
will be converted to base64 encoded string and store to the database",
and on download the stored data "will treat as base64 encoded string
and will be decoded to byte array using base64 decoder".  The base64
codec implementation file (core/Base64.h) is not among the sources, so
the standard base64 codec it implements is modelled here. -/

/-- Modelled from the spec: the base64 alphabet character for a sextet
value (`A`-`Z`, `a`-`z`, `0`-`9`, `+`, `/`), as used by the blob
conversion; values `≥ 64` do not occur. -/
def b64Char (n : Nat) : Char :=
  if n < 26 then Char.ofNat (65 + n)
  else if n < 52 then Char.ofNat (97 + (n - 26))
  else if n < 62 then Char.ofNat (48 + (n - 52))
  else if n = 62 then '+'
  else '/'

/-- Modelled from the spec: the sextet value of a base64 alphabet
character (the base64 decoder's character table). -/
def b64Val (c : Char) : Nat :=
  if 65 ≤ c.toNat ∧ c.toNat ≤ 90 then c.toNat - 65
  else if 97 ≤ c.toNat ∧ c.toNat ≤ 122 then 26 + (c.toNat - 97)
  else if 48 ≤ c.toNat ∧ c.toNat ≤ 57 then 52 + (c.toNat - 48)
  else if c = '+' then 62
  else if c = '/' then 63
  else 64

/-- Modelled from the spec: the blob-upload conversion — the byte data
is converted to a base64 encoded string (three bytes per four output
characters, `=`-padded). -/
def base64Encode : List Nat → List Char
  | a :: b :: c :: rest =>
      b64Char (a / 4) :: b64Char (a % 4 * 16 + b / 16) ::
        b64Char (b % 16 * 4 + c / 64) :: b64Char (c % 64) :: base64Encode rest
  | [a, b] => [b64Char (a / 4), b64Char (a % 4 * 16 + b / 16), b64Char (b % 16 * 4), '=']
  | [a] => [b64Char (a / 4), b64Char (a % 4 * 16), '=', '=']
  | [] => []

/-- Modelled from the spec: the blob-download conversion — the stored
data is treated as a base64 encoded string and decoded to a byte array
(four characters per three bytes, `=` padding ends the data). -/
def base64Decode : List Char → List Nat
  | c₁ :: c₂ :: c₃ :: c₄ :: rest =>
      if c₃ = '=' then [b64Val c₁ * 4 + b64Val c₂ / 16]
      else if c₄ = '=' then
        [b64Val c₁ * 4 + b64Val c₂ / 16, b64Val c₂ % 16 * 16 + b64Val c₃ / 4]
      else
        (b64Val c₁ * 4 + b64Val c₂ / 16) :: (b64Val c₂ % 16 * 16 + b64Val c₃ / 4) ::
          (b64Val c₃ % 4 * 64 + b64Val c₄) :: base64Decode rest
  | _ => []

/-- Modelled from the spec: the engine's blob-upload path stores the
byte buffer as its base64 encoding. -/
def blobUpload (data : List Nat) : List Char := base64Encode data

/-- Modelled from the spec: the engine's blob-download path decodes the
stored base64 string into the destination byte buffer. -/
def blobDownload (stored : List Char) : List Nat := base64Decode stored

theorem b64Val_b64Char : ∀ s : Nat, s < 64 → b64Val (b64Char s) = s := by
  decide

theorem b64Char_ne_pad : ∀ s : Nat, s < 64 → ¬ b64Char s = '=' := by
  decide

theorem base64_decode_encode :
    ∀ B : List Nat, (∀ b ∈ B, b < 256) → base64Decode (base64Encode B) = B
  | [], _ => rfl
  | [a], h => by
      have ha : a < 256 := h a (by simp)
      have h1 : a / 4 < 64 := by omega
      have h2 : a % 4 * 16 < 64 := by omega
      show base64Decode [b64Char (a / 4), b64Char (a % 4 * 16), '=', '='] = [a]
      simp only [base64Decode, if_true, eq_self_iff_true]
      rw [b64Val_b64Char _ h1, b64Val_b64Char _ h2]
      simp only [List.cons.injEq, and_true]
      omega
  | [a, b], h => by
      have ha : a < 256 := h a (by simp)
      have hb : b < 256 := h b (by simp)
      have h1 : a / 4 < 64 := by omega
      have h2 : a % 4 * 16 + b / 16 < 64 := by omega
      have h3 : b % 16 * 4 < 64 := by omega
      show base64Decode
          [b64Char (a / 4), b64Char (a % 4 * 16 + b / 16), b64Char (b % 16 * 4), '='] = [a, b]
      simp only [base64Decode]
      rw [if_neg (b64Char_ne_pad _ h3)]
      simp only [if_true, eq_self_iff_true]
      rw [b64Val_b64Char _ h1, b64Val_b64Char _ h2, b64Val_b64Char _ h3]
      simp only [List.cons.injEq, and_true]
      exact ⟨by omega, by omega⟩
  | a :: b :: c :: rest, h => by
      have ha : a < 256 := h a (by simp)
      have hb : b < 256 := h b (by simp)
      have hc : c < 256 := h c (by simp)
      have ih := base64_decode_encode rest (fun x hx => h x (by simp [hx]))
      have h1 : a / 4 < 64 := by omega
      have h2 : a % 4 * 16 + b / 16 < 64 := by omega
      have h3 : b % 16 * 4 + c / 64 < 64 := by omega
      have h4 : c % 64 < 64 := by omega
      show base64Decode (b64Char (a / 4) :: b64Char (a % 4 * 16 + b / 16) ::
          b64Char (b % 16 * 4 + c / 64) :: b64Char (c % 64) :: base64Encode rest) =
        a :: b :: c :: rest
      simp only [base64Decode]
      rw [if_neg (b64Char_ne_pad _ h3), if_neg (b64Char_ne_pad _ h4)]
      rw [b64Val_b64Char _ h1, b64Val_b64Char _ h2, b64Val_b64Char _ h3,
        b64Val_b64Char _ h4, ih]
      simp only [List.cons.injEq, and_true, eq_self_iff_true]
      exact ⟨by omega, by omega, by omega⟩

/-! ## Async Queue Engine

The engine implementation files (core/AsyncClient/...) are not among
the sources at hand; the task/queue/tick/cancel machinery below is
modelled from the design specification (sections 3, 4.1, 5, 7). -/

/-- Modelled from the spec: the task kind — `ordinary`, `authentication`
or `streaming` (SSE). -/
inductive TaskKind
  | ordinary
  | authentication
  | streaming
deriving DecidableEq

/-- Modelled from the spec: the per-task state machine
`queued | connecting | sending | receiving | streaming-idle | complete |
cancelled | error`. -/
inductive TaskState
  | queued
  | connecting
  | sending
  | receiving
  | streamingIdle
  | complete
  | cancelled
  | error
deriving DecidableEq

/-- A task state is "executing" when it occupies the
connecting/sending/receiving position. -/
def TaskState.isExecuting : TaskState → Bool
  | .connecting => true
  | .sending => true
  | .receiving => true
  | _ => false

/-- A task state is "dormant" when the task merely waits in the queue:
`queued`, or `streaming-idle` for a previously started stream. -/
def TaskState.isDormant : TaskState → Bool
  | .queued => true
  | .streamingIdle => true
  | _ => false

/-- Modelled from the spec: one queued unit of work, carrying its kind,
state-machine state, byte counters, an optional caller-supplied UID and
the error code it publishes to its Async Result sink. -/
structure AsyncTask where
  kind : TaskKind
  state : TaskState := .queued
  sent : Nat := 0
  received : Nat := 0
  errorCode : Int := 0
  uid : Nat := 0
deriving DecidableEq

/-- The engine error code for `OperationCancelled`. -/
def OPERATION_CANCELLED : Int := -118

/-- Modelled from the spec: cancellation transitions the task to
`cancelled` and publishes `OperationCancelled` (code -118) to its
Result. -/
def AsyncTask.cancelMark (t : AsyncTask) : AsyncTask :=
  { t with state := .cancelled, errorCode := OPERATION_CANCELLED }

/-- A task transitioned to the `streaming-idle` state (an interrupted
stream awaiting a future restart). -/
def AsyncTask.toStreamingIdle (t : AsyncTask) : AsyncTask :=
  { t with state := .streamingIdle }

/-- Modelled from the spec: a streaming task displaced by a newly
admitted task parks in `streaming-idle` awaiting restart unless it has
not started yet. -/
def AsyncTask.parkStream (t : AsyncTask) : AsyncTask :=
  if t.state = .queued then t else t.toStreamingIdle

/-- A task admitted into the queue starts in the `queued` state with
fresh counters and a clear Result. -/
def AsyncTask.fresh (t : AsyncTask) : AsyncTask :=
  { t with state := .queued, sent := 0, received := 0, errorCode := 0 }

/-- Whether a task is of the streaming (SSE) kind. -/
def AsyncTask.isStreaming (t : AsyncTask) : Bool := t.kind = .streaming

/-- Whether a task is a started (active) stream: a streaming-kind task
that has left the `queued` state — the "stopped and waiting for
restarting" SSE task the documentation exempts from eviction. -/
def AsyncTask.startedStream (t : AsyncTask) : Bool :=
  t.isStreaming && ! decide (t.state = TaskState.queued)

/-- Modelled from the spec: the admission outcome of `enqueue` —
admitted, or rejected with `QueueFull`. -/
inductive EnqueueOutcome
  | admitted
  | queueFull
deriving DecidableEq

/-- Modelled from the spec: the Async Client engine — the
capacity-bounded FIFO task queue (default capacity 10), the transport
connection flag, and the list of tasks already removed from the queue
together with the final state each published to its Async Result. -/
structure AsyncEngine where
  capacity : Nat := 10
  queue : List AsyncTask := []
  connected : Bool := false
  reaped : List AsyncTask := []
deriving DecidableEq

/-- The engine in its initial configuration (default capacity 10,
empty queue, transport not connected). -/
def AsyncEngine.init : AsyncEngine := {}

/-- Modelled from the spec: `enqueue(task)`.
An authentication task is always admitted: it moves to the front and
every other task is cancelled (code -118) and removed, except a
started (active) stream, which parks in `streaming-idle` awaiting
restart.  Otherwise, if the
capacity is reached the enqueue fails with `QueueFull` and the newest
arrival is cancelled (code -118) without evicting any queued entry.  A
new streaming request cancels the prior stream (connection reset)
before being installed last.  An ordinary task is inserted ahead of the
streaming task (stream-last), interrupting an in-progress stream. -/
def AsyncEngine.enqueue (e : AsyncEngine) (t : AsyncTask) : AsyncEngine × EnqueueOutcome :=
  if t.kind = .authentication then
    ({ e with
        queue := t.fresh ::
          ((e.queue.filter AsyncTask.startedStream).map AsyncTask.parkStream),
        reaped := e.reaped ++
          ((e.queue.filter fun u => ! u.startedStream).map AsyncTask.cancelMark) },
      .admitted)
  else if e.capacity ≤ e.queue.length then
    ({ e with reaped := e.reaped ++ [t.cancelMark] }, .queueFull)
  else if t.kind = .streaming then
    ({ e with
        queue := (e.queue.filter fun u => ! u.isStreaming) ++ [t.fresh],
        connected := false,
        reaped := e.reaped ++
          ((e.queue.filter AsyncTask.isStreaming).map AsyncTask.cancelMark) },
      .admitted)
  else
    ({ e with
        queue := (e.queue.filter fun u => ! u.isStreaming) ++ [t.fresh] ++
          ((e.queue.filter AsyncTask.isStreaming).map AsyncTask.parkStream) },
      .admitted)

/-- Modelled from the spec: what the network layer reports during one
tick — progress (the transport accepts bytes / has bytes available and
the response is well formed), or a failure carrying an error code: a
transport-level error (connect/write/read failure, timeout) or a
protocol/application error (a non-2xx provider status, malformed
framing), both of which the engine surfaces identically as the task's
error code. -/
inductive NetEvent
  | progress
  | fail (code : Int)
deriving DecidableEq

/-- Modelled from the spec: `tick()` — one non-blocking step.  An empty
queue is left untouched.  Otherwise the head task is driven one
increment through connect → send → receive → complete; a transport
failure marks it `error`, publishes the code to its Result and tears
the connection down; a task in `complete`/`error`/`cancelled` is reaped
(removed and recorded) unless it is streaming, in which case it loops
back to `streaming-idle` and is revisited (automatic reconnect). -/
def AsyncEngine.tick (e : AsyncEngine) (ev : NetEvent) : AsyncEngine :=
  match e.queue with
  | [] => e
  | h :: rest =>
    match h.state with
    | .complete | .cancelled | .error =>
        if h.kind = .streaming then
          { e with queue := h.toStreamingIdle :: rest }
        else
          { e with queue := rest, reaped := e.reaped ++ [h] }
    | .queued =>
        match ev with
        | .progress => { e with queue := { h with state := .connecting } :: rest }
        | .fail c =>
            { e with queue := { h with state := .error, errorCode := c } :: rest,
                     connected := false }
    | .connecting =>
        match ev with
        | .progress => { e with queue := { h with state := .sending } :: rest,
                                connected := true }
        | .fail c =>
            { e with queue := { h with state := .error, errorCode := c } :: rest,
                     connected := false }
    | .sending =>
        match ev with
        | .progress =>
            { e with queue := { h with state := .receiving, sent := h.sent + 1 } :: rest }
        | .fail c =>
            { e with queue := { h with state := .error, errorCode := c } :: rest,
                     connected := false }
    | .receiving =>
        match ev with
        | .progress =>
            if h.kind = .streaming then
              { e with queue := { h with received := h.received + 1 } :: rest }
            else
              { e with queue :=
                  { h with state := .complete, received := h.received + 1 } :: rest }
        | .fail c =>
            { e with queue := { h with state := .error, errorCode := c } :: rest,
                     connected := false }
    | .streamingIdle =>
        match ev with
        | .progress => { e with queue := { h with state := .connecting } :: rest }
        | .fail c =>
            { e with queue := { h with state := .error, errorCode := c } :: rest,
                     connected := false }

/-- Modelled from the spec: the per-task decision of `cancel(task_ref)`:
a targeted already-started stream survives as `streaming-idle`; any
other targeted task is dropped from the queue; untargeted tasks are
kept unchanged. -/
def cancelKeep (uid : Nat) (u : AsyncTask) : Option AsyncTask :=
  if u.uid = uid then
    if u.kind = .streaming ∧ ¬ u.state = .queued then some u.toStreamingIdle else none
  else some u

/-- Modelled from the spec: `cancel(task_ref)` — the targeted tasks are
transitioned to `cancelled`, code -118 is published to their Results
and they are removed from the queue, except an already started stream,
which transitions to `streaming-idle` and stays. -/
def AsyncEngine.cancelTask (e : AsyncEngine) (uid : Nat) : AsyncEngine :=
  { e with
    queue := e.queue.filterMap (cancelKeep uid),
    reaped := e.reaped ++
      ((e.queue.filter fun u =>
          u.uid = uid ∧ ¬ (u.kind = .streaming ∧ ¬ u.state = .queued)).map
        AsyncTask.cancelMark) }

/-- One externally driven step of an Async Client: an enqueue, a tick
with some transport behaviour, or a cancellation. -/
inductive EngineStep
  | enq (t : AsyncTask)
  | tick (ev : NetEvent)
  | cancel (uid : Nat)

/-- Apply one step to the engine. -/
def AsyncEngine.applyStep (e : AsyncEngine) : EngineStep → AsyncEngine
  | .enq t => (e.enqueue t).1
  | .tick ev => e.tick ev
  | .cancel uid => e.cancelTask uid

/-- Run the engine from a state through a sequence of steps. -/
def AsyncEngine.run (e : AsyncEngine) (ss : List EngineStep) : AsyncEngine :=
  ss.foldl AsyncEngine.applyStep e

/-! ## Engine well-formedness invariant -/

/-- The structural invariant of an Async Client's queue: the capacity
is at least 2 and the queue fits it, at most one streaming task is
present, every task behind the head is dormant (`queued` or
`streaming-idle`), and a task still in the `queued` state has written
no bytes to the transport. -/
def queueWF (cap : Nat) (q : List AsyncTask) : Prop :=
  2 ≤ cap ∧
  q.length ≤ cap ∧
  (q.filter AsyncTask.isStreaming).length ≤ 1 ∧
  (∀ t ∈ q.drop 1, t.state.isDormant = true) ∧
  (∀ t ∈ q, t.state = .queued → t.sent = 0)

/-- An engine state is well formed when its queue is. -/
def AsyncEngine.wellFormed (e : AsyncEngine) : Prop := queueWF e.capacity e.queue

theorem parkStream_kind (u : AsyncTask) : u.parkStream.kind = u.kind := by
  unfold AsyncTask.parkStream AsyncTask.toStreamingIdle
  split <;> rfl

theorem parkStream_dormant (u : AsyncTask) : u.parkStream.state.isDormant = true := by
  unfold AsyncTask.parkStream AsyncTask.toStreamingIdle
  split
  · rename_i hu; rw [hu]; rfl
  · rfl

theorem parkStream_queued_sent (u : AsyncTask) (hu : u.state = .queued → u.sent = 0) :
    u.parkStream.state = .queued → u.parkStream.sent = 0 := by
  unfold AsyncTask.parkStream AsyncTask.toStreamingIdle
  split
  · exact hu
  · intro hx; exact absurd hx (by simp)

theorem mem_drop_one_append {α : Type} {x : α} {l₁ l₂ : List α}
    (h : x ∈ (l₁ ++ l₂).drop 1) : x ∈ l₁.drop 1 ∨ x ∈ l₂ := by
  cases l₁ with
  | nil => exact Or.inr (List.mem_of_mem_drop h)
  | cons a t =>
      simp only [List.cons_append, List.drop_succ_cons, List.drop_zero] at h
      rcases List.mem_append.mp h with h1 | h2
      · exact Or.inl (by simpa using h1)
      · exact Or.inr h2

theorem filter_drop_one {α : Type} (p : α → Bool) (P : α → Prop) (l : List α)
    (h : ∀ x ∈ l.drop 1, P x) : ∀ x ∈ (l.filter p).drop 1, P x := by
  cases l with
  | nil => intro x hx; simp at hx
  | cons a t =>
      intro x hx
      rw [List.filter_cons] at hx
      by_cases hp : p a = true
      · rw [if_pos hp] at hx
        simp only [List.drop_succ_cons, List.drop_zero] at hx
        exact h x (by simpa using (List.mem_filter.mp hx).1)
      · rw [if_neg hp] at hx
        have hx' := List.mem_of_mem_drop hx
        exact h x (by simpa using (List.mem_filter.mp hx').1)

theorem length_filter_not_add (p : AsyncTask → Bool) (l : List AsyncTask) :
    (l.filter fun a => ! p a).length + (l.filter p).length = l.length := by
  induction l with
  | nil => rfl
  | cons a t ih =>
      cases h : p a <;> simp [List.filter_cons, h] <;> omega

theorem startedStream_isStreaming (u : AsyncTask) (h : u.startedStream = true) :
    u.isStreaming = true := by
  unfold AsyncTask.startedStream at h
  simp only [Bool.and_eq_true] at h
  exact h.1

theorem length_filter_mono (p q : AsyncTask → Bool) (hpq : ∀ u, p u = true → q u = true)
    (l : List AsyncTask) : (l.filter p).length ≤ (l.filter q).length := by
  induction l with
  | nil => simp
  | cons a t ih =>
      rw [List.filter_cons, List.filter_cons]
      by_cases hp : p a = true
      · rw [if_pos hp, if_pos (hpq a hp)]
        simpa using ih
      · rw [if_neg hp]
        split
        · simp only [List.length_cons]
          omega
        · exact ih

theorem filter_map_park_started (q : List AsyncTask) :
    ((q.filter AsyncTask.startedStream).map AsyncTask.parkStream).filter
        AsyncTask.isStreaming =
      (q.filter AsyncTask.startedStream).map AsyncTask.parkStream := by
  apply List.filter_eq_self.mpr
  intro x hx
  obtain ⟨u, hu, rfl⟩ := List.mem_map.mp hx
  have hs := startedStream_isStreaming u (List.mem_filter.mp hu).2
  unfold AsyncTask.isStreaming at hs ⊢
  rw [parkStream_kind]
  exact hs

theorem filter_map_park_streaming (q : List AsyncTask) :
    ((q.filter AsyncTask.isStreaming).map AsyncTask.parkStream).filter AsyncTask.isStreaming =
      (q.filter AsyncTask.isStreaming).map AsyncTask.parkStream := by
  apply List.filter_eq_self.mpr
  intro x hx
  obtain ⟨u, hu, rfl⟩ := List.mem_map.mp hx
  have hs := (List.mem_filter.mp hu).2
  unfold AsyncTask.isStreaming at hs ⊢
  rw [parkStream_kind]
  exact hs

theorem filter_streaming_of_not (q : List AsyncTask) :
    ((q.filter fun u => ! u.isStreaming).filter AsyncTask.isStreaming) = [] := by
  rw [List.filter_eq_nil_iff]
  intro a ha
  have hs := (List.mem_filter.mp ha).2
  simp only [Bool.not_eq_true'] at hs
  simp [hs]

theorem queueWF_replaceHead (cap : Nat) (h h' : AsyncTask) (rest : List AsyncTask)
    (hk : h'.kind = h.kind) (hs : h'.state = .queued → h'.sent = 0)
    (hwf : queueWF cap (h :: rest)) : queueWF cap (h' :: rest) := by
  obtain ⟨hcap, hlen, hstream, htail, hqueued⟩ := hwf
  refine ⟨hcap, by simpa using hlen, ?_, ?_, ?_⟩
  · have hss : h'.isStreaming = h.isStreaming := by
      unfold AsyncTask.isStreaming; rw [hk]
    rw [List.filter_cons] at hstream ⊢
    rw [hss]
    split at hstream
    · rename_i hc
      rw [if_pos hc]
      simpa using hstream
    · rename_i hc
      rw [if_neg hc]
      exact hstream
  · intro x hx
    exact htail x (by simpa using hx)
  · intro x hx hxq
    rcases List.mem_cons.mp hx with rfl | hx'
    · exact hs hxq
    · exact hqueued x (List.mem_cons_of_mem _ hx') hxq

theorem queueWF_pop (cap : Nat) (h : AsyncTask) (rest : List AsyncTask)
    (hwf : queueWF cap (h :: rest)) : queueWF cap rest := by
  obtain ⟨hcap, hlen, hstream, htail, hqueued⟩ := hwf
  refine ⟨hcap, ?_, ?_, ?_, ?_⟩
  · simp only [List.length_cons] at hlen; omega
  · rw [List.filter_cons] at hstream
    split at hstream
    · simp only [List.length_cons] at hstream; omega
    · exact hstream
  · intro x hx
    exact htail x (by simpa using List.mem_of_mem_drop hx)
  · intro x hx
    exact hqueued x (List.mem_cons_of_mem _ hx)

theorem wellFormed_enqueue (e : AsyncEngine) (t : AsyncTask) (he : e.wellFormed) :
    (e.enqueue t).1.wellFormed := by
  obtain ⟨hcap, hlen, hstream, htail, hqueued⟩ := he
  unfold AsyncEngine.enqueue
  split
  · -- authentication task
    have hmono := length_filter_mono AsyncTask.startedStream AsyncTask.isStreaming
      startedStream_isStreaming e.queue
    refine ⟨hcap, ?_, ?_, ?_, ?_⟩
    · simp only [List.length_cons, List.length_map]
      omega
    · rw [List.filter_cons]
      rename_i ht
      have hns : t.fresh.isStreaming = false := by
        unfold AsyncTask.isStreaming AsyncTask.fresh
        simp [ht]
      rw [hns]
      simp only [Bool.false_eq_true, if_false]
      rw [filter_map_park_started]
      simp only [List.length_map]
      omega
    · intro x hx
      simp only [List.drop_succ_cons, List.drop_zero] at hx
      obtain ⟨u, hu, rfl⟩ := List.mem_map.mp hx
      exact parkStream_dormant u
    · intro x hx hxq
      rcases List.mem_cons.mp hx with rfl | hx'
      · rfl
      · obtain ⟨u, hu, rfl⟩ := List.mem_map.mp hx'
        exact parkStream_queued_sent u (hqueued u (List.mem_filter.mp hu).1) hxq
  · split
    · -- queue full: unchanged
      exact ⟨hcap, hlen, hstream, htail, hqueued⟩
    · split
      · -- new streaming task
        rename_i hta hfull hts
        refine ⟨hcap, ?_, ?_, ?_, ?_⟩
        · simp only [List.length_append, List.length_singleton]
          have := List.length_filter_le (fun u => ! u.isStreaming) e.queue
          omega
        · rw [List.filter_append, filter_streaming_of_not]
          have hsf : t.fresh.isStreaming = true := by
            unfold AsyncTask.isStreaming AsyncTask.fresh
            simp [hts]
          simp [List.filter_cons, hsf]
        · intro x hx
          rcases mem_drop_one_append hx with hx' | hx'
          · exact filter_drop_one _ _ _ htail x hx'
          · have : x = t.fresh := by simpa using hx'
            rw [this]; rfl
        · intro x hx hxq
          rcases List.mem_append.mp hx with hx' | hx'
          · exact hqueued x (List.mem_filter.mp hx').1 hxq
          · have : x = t.fresh := by simpa using hx'
            rw [this]; rfl
      · -- ordinary task
        rename_i hta hfull hts
        refine ⟨hcap, ?_, ?_, ?_, ?_⟩
        · simp only [List.length_append, List.length_singleton, List.length_map]
          have := length_filter_not_add AsyncTask.isStreaming e.queue
          omega
        · rw [List.filter_append, List.filter_append, filter_streaming_of_not,
            filter_map_park_streaming]
          have hsf : t.fresh.isStreaming = false := by
            unfold AsyncTask.isStreaming AsyncTask.fresh
            simp [hts]
          simp only [List.filter_cons, hsf, Bool.false_eq_true, if_false, List.filter_nil,
            List.nil_append, List.length_map]
          simpa using hstream
        · intro x hx
          rw [List.append_assoc] at hx
          rcases mem_drop_one_append hx with hx' | hx'
          · exact filter_drop_one _ _ _ htail x hx'
          · rcases List.mem_append.mp hx' with hx'' | hx''
            · have : x = t.fresh := by simpa using hx''
              rw [this]; rfl
            · obtain ⟨u, hu, rfl⟩ := List.mem_map.mp hx''
              exact parkStream_dormant u
        · intro x hx hxq
          rw [List.append_assoc] at hx
          rcases List.mem_append.mp hx with hx' | hx'
          · exact hqueued x (List.mem_filter.mp hx').1 hxq
          · rcases List.mem_append.mp hx' with hx'' | hx''
            · have : x = t.fresh := by simpa using hx''
              rw [this]; rfl
            · obtain ⟨u, hu, rfl⟩ := List.mem_map.mp hx''
              exact parkStream_queued_sent u (hqueued u (List.mem_filter.mp hu).1) hxq

theorem wellFormed_tick (e : AsyncEngine) (ev : NetEvent) (he : e.wellFormed) :
    (e.tick ev).wellFormed := by
  unfold AsyncEngine.tick
  split
  · exact he
  · rename_i h rest hq
    have hwf : queueWF e.capacity (h :: rest) := by
      unfold AsyncEngine.wellFormed at he
      rw [hq] at he
      exact he
    split
    · -- complete head: reap (or park the stream)
      split
      · exact queueWF_replaceHead e.capacity h h.toStreamingIdle rest rfl
          (fun hx => nomatch hx) hwf
      · exact queueWF_pop e.capacity h rest hwf
    · -- cancelled head: reap (or park the stream)
      split
      · exact queueWF_replaceHead e.capacity h h.toStreamingIdle rest rfl
          (fun hx => nomatch hx) hwf
      · exact queueWF_pop e.capacity h rest hwf
    · -- error head: reap (or park the stream)
      split
      · exact queueWF_replaceHead e.capacity h h.toStreamingIdle rest rfl
          (fun hx => nomatch hx) hwf
      · exact queueWF_pop e.capacity h rest hwf
    · -- queued head
      cases ev with
      | progress =>
          exact queueWF_replaceHead e.capacity h _ rest rfl (fun hx => nomatch hx) hwf
      | fail c =>
          exact queueWF_replaceHead e.capacity h _ rest rfl (fun hx => nomatch hx) hwf
    · -- connecting head
      cases ev with
      | progress =>
          exact queueWF_replaceHead e.capacity h _ rest rfl (fun hx => nomatch hx) hwf
      | fail c =>
          exact queueWF_replaceHead e.capacity h _ rest rfl (fun hx => nomatch hx) hwf
    · -- sending head
      cases ev with
      | progress =>
          exact queueWF_replaceHead e.capacity h _ rest rfl (fun hx => nomatch hx) hwf
      | fail c =>
          exact queueWF_replaceHead e.capacity h _ rest rfl (fun hx => nomatch hx) hwf
    · -- receiving head
      rename_i hstate
      cases ev with
      | progress =>
          by_cases hk : h.kind = TaskKind.streaming
          · rw [if_pos hk]
            exact queueWF_replaceHead e.capacity h _ rest rfl
              (fun hx => nomatch hstate ▸ hx) hwf
          · rw [if_neg hk]
            exact queueWF_replaceHead e.capacity h _ rest rfl (fun hx => nomatch hx) hwf
      | fail c =>
          exact queueWF_replaceHead e.capacity h _ rest rfl (fun hx => nomatch hx) hwf
    · -- streaming-idle head
      cases ev with
      | progress =>
          exact queueWF_replaceHead e.capacity h _ rest rfl (fun hx => nomatch hx) hwf
      | fail c =>
          exact queueWF_replaceHead e.capacity h _ rest rfl (fun hx => nomatch hx) hwf

theorem cancelKeep_some (uid : Nat) (u x : AsyncTask) (hx : cancelKeep uid u = some x) :
    x = u ∨ x = u.toStreamingIdle := by
  unfold cancelKeep at hx
  split at hx
  · split at hx
    · injection hx with hx'
      exact Or.inr hx'.symm
    · exact absurd hx (by simp)
  · injection hx with hx'
    exact Or.inl hx'.symm

theorem filterMap_cancel_stream_le (uid : Nat) (q : List AsyncTask) :
    ((q.filterMap (cancelKeep uid)).filter AsyncTask.isStreaming).length ≤
      (q.filter AsyncTask.isStreaming).length := by
  induction q with
  | nil => simp
  | cons a t ih =>
      rw [List.filterMap_cons]
      cases hfa : cancelKeep uid a with
      | none =>
          simp only [hfa]
          rw [List.filter_cons]
          split
          · simp only [List.length_cons]; omega
          · exact ih
      | some b =>
          simp only [hfa]
          have hks : b.isStreaming = a.isStreaming := by
            rcases cancelKeep_some uid a b hfa with h | h
            · rw [h]
            · rw [h]; unfold AsyncTask.isStreaming AsyncTask.toStreamingIdle; rfl
          rw [List.filter_cons, List.filter_cons, hks]
          split
          · simp only [List.length_cons]; omega
          · exact ih

theorem cancelKeep_dormant (uid : Nat) (u x : AsyncTask) (hx : cancelKeep uid u = some x)
    (hu : u.state.isDormant = true) : x.state.isDormant = true := by
  rcases cancelKeep_some uid u x hx with rfl | rfl
  · exact hu
  · rfl

theorem cancel_tail_dormant (uid : Nat) (q : List AsyncTask)
    (htail : ∀ t ∈ q.drop 1, t.state.isDormant = true) :
    ∀ x ∈ (q.filterMap (cancelKeep uid)).drop 1, x.state.isDormant = true := by
  cases q with
  | nil => intro x hx; simp at hx
  | cons a t =>
      intro x hx
      rw [List.filterMap_cons] at hx
      have hmem : x ∈ t.filterMap (cancelKeep uid) := by
        cases hfa : cancelKeep uid a with
        | none => simp only [hfa] at hx; exact List.mem_of_mem_drop hx
        | some b => simp only [hfa] at hx; simpa using hx
      obtain ⟨u, hu, hfu⟩ := List.mem_filterMap.mp hmem
      exact cancelKeep_dormant uid u x hfu (htail u (by simpa using hu))

theorem wellFormed_cancel (e : AsyncEngine) (uid : Nat) (he : e.wellFormed) :
    (e.cancelTask uid).wellFormed := by
  obtain ⟨hcap, hlen, hstream, htail, hqueued⟩ := he
  refine ⟨hcap, ?_, ?_, ?_, ?_⟩
  · exact le_trans (List.length_filterMap_le _ _) hlen
  · exact le_trans (filterMap_cancel_stream_le uid e.queue) hstream
  · exact cancel_tail_dormant uid e.queue htail
  · intro x hx hxq
    obtain ⟨u, hu, hfu⟩ := List.mem_filterMap.mp hx
    rcases cancelKeep_some uid u x hfu with h | h
    · subst h
      exact hqueued x hu hxq
    · subst h
      exact absurd hxq (by simp [AsyncTask.toStreamingIdle])

theorem wellFormed_applyStep (e : AsyncEngine) (s : EngineStep) (he : e.wellFormed) :
    (e.applyStep s).wellFormed := by
  cases s with
  | enq t => exact wellFormed_enqueue e t he
  | tick ev => exact wellFormed_tick e ev he
  | cancel uid => exact wellFormed_cancel e uid he

theorem wellFormed_init : AsyncEngine.init.wellFormed := by
  refine ⟨by decide, by decide, by decide, ?_, ?_⟩
  · intro t ht
    exact absurd ht (List.not_mem_nil t)
  · intro t ht
    exact absurd ht (List.not_mem_nil t)

theorem wellFormed_run (e : AsyncEngine) (ss : List EngineStep) (he : e.wellFormed) :
    (e.run ss).wellFormed := by
  induction ss generalizing e with
  | nil => exact he
  | cons s ss ih => exact ih _ (wellFormed_applyStep e s he)

theorem capacity_enqueue (e : AsyncEngine) (t : AsyncTask) :
    (e.enqueue t).1.capacity = e.capacity := by
  unfold AsyncEngine.enqueue
  split
  · rfl
  · split
    · rfl
    · split <;> rfl

theorem capacity_tick (e : AsyncEngine) (ev : NetEvent) :
    (e.tick ev).capacity = e.capacity := by
  unfold AsyncEngine.tick
  repeat' split
  all_goals rfl

theorem capacity_applyStep (e : AsyncEngine) (s : EngineStep) :
    (e.applyStep s).capacity = e.capacity := by
  cases s with
  | enq t => exact capacity_enqueue e t
  | tick ev => exact capacity_tick e ev
  | cancel uid => rfl

theorem capacity_run (e : AsyncEngine) (ss : List EngineStep) :
    (e.run ss).capacity = e.capacity := by
  induction ss generalizing e with
  | nil => rfl
  | cons s ss ih => exact (ih _).trans (capacity_applyStep e s)

/-! ## Claim theorems -/

theorem val_finite (q : ℚ) :
    firebase.UnityRange.val (CFloat.finite q) =
      if 1 < q then CFloat.finite 1
      else if q < 0 then CFloat.finite 0
      else CFloat.finite q := by
  unfold firebase.UnityRange.val CFloat.gt
  by_cases h1 : 1 < q
  · rw [if_pos (by simp [CFloat.lt, h1]), if_pos h1]
  · rw [if_neg (by simp [CFloat.lt, h1]), if_neg h1]
    by_cases h2 : q < 0
    · rw [if_pos (by simp [CFloat.lt, h2]), if_pos h2]
    · rw [if_neg (by simp [CFloat.lt, h2]), if_neg h2]

theorem le_finite (a b : ℚ) : CFloat.le (.finite a) (.finite b) = true ↔ a ≤ b := by
  unfold CFloat.le
  simp only [CFloat.lt, CFloat.beq, Bool.or_eq_true, decide_eq_true_eq]
  constructor
  · intro h
    rcases h with h | h
    · exact le_of_lt h
    · exact le_of_eq h
  · intro h
    rcases lt_or_eq_of_le h with h | h
    · exact Or.inl h
    · exact Or.inr h

/-- Counterexample for C9: at the input NaN the source returns NaN
(both guards are false under IEEE comparisons), which lies outside
[0, 1], and idempotence fails under the C++ `==` since NaN compares
unequal to itself. -/
theorem unityRange_val_nan_counterexample :
    firebase.UnityRange.val CFloat.nan = CFloat.nan ∧
    CFloat.le (CFloat.finite 0) (firebase.UnityRange.val CFloat.nan) = false ∧
    CFloat.le (firebase.UnityRange.val CFloat.nan) (CFloat.finite 1) = false ∧
    CFloat.beq (firebase.UnityRange.val (firebase.UnityRange.val CFloat.nan))
      (firebase.UnityRange.val CFloat.nan) = false := by
  decide

/-- C9 (amended): for every input other than NaN, `UnityRange::val(x)`
lies in the closed interval [0, 1] under IEEE `<=`; it returns `x`
unchanged whenever `0 <= x <= 1`, returns 1 for `x > 1`, returns 0 for
`x < 0`, and is idempotent (structurally, and under the C++ `==`).  At
NaN the source returns NaN, which lies outside [0, 1]. -/
theorem unityRange_val_clamps (x : CFloat) (hx : ¬ x = CFloat.nan) :
    (CFloat.le (CFloat.finite 0) (firebase.UnityRange.val x) = true ∧
     CFloat.le (firebase.UnityRange.val x) (CFloat.finite 1) = true) ∧
    (CFloat.le (CFloat.finite 0) x = true → CFloat.le x (CFloat.finite 1) = true →
      firebase.UnityRange.val x = x) ∧
    (CFloat.gt x (CFloat.finite 1) = true → firebase.UnityRange.val x = CFloat.finite 1) ∧
    (CFloat.lt x (CFloat.finite 0) = true → firebase.UnityRange.val x = CFloat.finite 0) ∧
    (firebase.UnityRange.val (firebase.UnityRange.val x) = firebase.UnityRange.val x ∧
     CFloat.beq (firebase.UnityRange.val (firebase.UnityRange.val x))
       (firebase.UnityRange.val x) = true) := by
  cases x with
  | nan => exact absurd rfl hx
  | posInf => decide
  | negInf => decide
  | finite q =>
      rw [val_finite]
      split_ifs with h1 h2
      · refine ⟨⟨by decide, by decide⟩, ?_, fun _ => rfl, ?_,
          by rw [val_finite]; norm_num [CFloat.beq]⟩
        · intro h0 hle
          exact absurd ((le_finite q 1).mp hle) (by linarith)
        · intro hlt
          simp only [CFloat.lt, decide_eq_true_eq] at hlt
          linarith
      · refine ⟨⟨by decide, by decide⟩, ?_, ?_, fun _ => rfl,
          by rw [val_finite]; norm_num [CFloat.beq]⟩
        · intro h0 hle
          exact absurd ((le_finite 0 q).mp h0) (by linarith)
        · intro hgt
          simp only [CFloat.gt, CFloat.lt, decide_eq_true_eq] at hgt
          linarith
      · push_neg at h1 h2
        refine ⟨⟨(le_finite 0 q).mpr h2, (le_finite q 1).mpr h1⟩, fun _ _ => rfl, ?_, ?_, ?_⟩
        · intro hgt
          simp only [CFloat.gt, CFloat.lt, decide_eq_true_eq] at hgt
          linarith
        · intro hlt
          simp only [CFloat.lt, decide_eq_true_eq] at hlt
          linarith
        · rw [val_finite, if_neg (by linarith), if_neg (by linarith)]
          exact ⟨rfl, by simp [CFloat.beq]⟩

/-- Witness for C9 (amended) at the concrete inputs 1/2, 2 and -1. -/
theorem unityRange_val_clamps_witness :
    firebase.UnityRange.val (CFloat.finite (1/2)) = CFloat.finite (1/2) ∧
    firebase.UnityRange.val (CFloat.finite 2) = CFloat.finite 1 ∧
    firebase.UnityRange.val (CFloat.finite (-1)) = CFloat.finite 0 :=
  ⟨(unityRange_val_clamps (CFloat.finite (1/2)) (by simp)).2.1
      ((le_finite 0 (1/2)).mpr (by norm_num)) ((le_finite (1/2) 1).mpr (by norm_num)),
   (unityRange_val_clamps (CFloat.finite 2) (by simp)).2.2.1 (by decide),
   (unityRange_val_clamps (CFloat.finite (-1)) (by simp)).2.2.2.1 (by decide)⟩

theorem strlen_zero (s : String) (h : s.length = 0) : s = "" := by
  cases s with
  | mk data =>
      cases data with
      | nil => rfl
      | cons a t => simp [String.length] at h

/-- C10: `ObjectWriter::makeResourcePath(path, toString)` returns the
base `"<resource_path>"` and `path` concatenated, with a `/` separator
inserted exactly when `path` is non-empty and does not begin with `/`,
the whole wrapped in double quotes exactly when `toString` is set (the
input `path` is taken by value in the embedding, so it is unmodified by
construction). -/
theorem makeResourcePath_correct (path : String) (toStr : Bool) :
    ObjectWriter.makeResourcePath path toStr =
      ObjectWriter.makeResourcePathSpec path toStr := by
  unfold ObjectWriter.makeResourcePath ObjectWriter.makeResourcePathSpec
  by_cases hp : path = ""
  · subst hp
    cases toStr <;>
      simp [String.empty_append, String.append_empty, String.append_assoc]
  · have hlen : path.length ≠ 0 := fun h => hp (strlen_zero path h)
    by_cases hf : path.front = '/'
    · cases toStr <;>
        simp [hlen, hp, hf, String.empty_append, String.append_empty, String.append_assoc]
    · cases toStr <;>
        simp [hlen, hp, hf, String.empty_append, String.append_empty, String.append_assoc]

/-- C8: every synchronous boolean-returning operation of
`Firestore::Databases` and `Firestore::Databases::Indexes` constructs a
fresh default `AsyncResult`, performs the request into it, and returns
`true` exactly when that result's `lastError.code()` equals 0 — for
every behaviour of the underlying request helpers. -/
theorem databases_sync_bool_ops
    (eximDocs : Bool → Bool → AsyncResult → AsyncResult)
    (manageDatabase : String → String → Firestore.DatabaseMode → Bool → AsyncResult → AsyncResult)
    (databaseIndexManager : String → String → Bool → Bool → AsyncResult → AsyncResult)
    (database updateMask etag indexId index : String) :
    (Firestore.Databases.exportDocuments eximDocs = true ↔
      (eximDocs false false {}).lastError.code = 0) ∧
    (Firestore.Databases.importDocuments eximDocs = true ↔
      (eximDocs true false {}).lastError.code = 0) ∧
    (Firestore.Databases.create manageDatabase database = true ↔
      (manageDatabase database "" Firestore.DatabaseMode.createMode false {}).lastError.code = 0) ∧
    (Firestore.Databases.deleteDatabase manageDatabase etag = true ↔
      (manageDatabase "" etag Firestore.DatabaseMode.deleteMode false {}).lastError.code = 0) ∧
    (Firestore.Databases.get manageDatabase = true ↔
      (manageDatabase "" "" Firestore.DatabaseMode.getMode false {}).lastError.code = 0) ∧
    (Firestore.Databases.list manageDatabase = true ↔
      (manageDatabase "" "" Firestore.DatabaseMode.listMode false {}).lastError.code = 0) ∧
    (Firestore.Databases.patch manageDatabase database updateMask = true ↔
      (manageDatabase database updateMask Firestore.DatabaseMode.patchMode false {}).lastError.code = 0) ∧
    (Firestore.Databases.Indexes.create databaseIndexManager index = true ↔
      (databaseIndexManager index "" false false {}).lastError.code = 0) ∧
    (Firestore.Databases.Indexes.deleteIndex databaseIndexManager indexId = true ↔
      (databaseIndexManager "" indexId true false {}).lastError.code = 0) ∧
    (Firestore.Databases.Indexes.get databaseIndexManager indexId = true ↔
      (databaseIndexManager "" indexId false false {}).lastError.code = 0) ∧
    (Firestore.Databases.Indexes.list databaseIndexManager = true ↔
      (databaseIndexManager "" "" false false {}).lastError.code = 0) := by
  simp [Firestore.Databases.exportDocuments, Firestore.Databases.importDocuments,
    Firestore.Databases.create, Firestore.Databases.deleteDatabase, Firestore.Databases.get,
    Firestore.Databases.list, Firestore.Databases.patch, Firestore.Databases.Indexes.create,
    Firestore.Databases.Indexes.deleteIndex, Firestore.Databases.Indexes.get,
    Firestore.Databases.Indexes.list, beq_iff_eq]

/-- C6: a byte buffer uploaded through the engine's blob-upload path
and downloaded back through the blob-download path equals the original
byte-for-byte (hence it fills a same-sized destination buffer). -/
theorem blob_roundtrip (B : List Nat) (hB : ∀ b ∈ B, b < 256) :
    blobDownload (blobUpload B) = B :=
  base64_decode_encode B hB

/-- Witness for C6 on the concrete byte buffer [72, 101, 108, 108, 111]. -/
theorem blob_roundtrip_witness :
    blobDownload (blobUpload [72, 101, 108, 108, 111]) = [72, 101, 108, 108, 111] :=
  blob_roundtrip [72, 101, 108, 108, 111] (by decide)

/-- C5: `tick()` on an engine whose queue is empty is a no-op: the
whole engine state — in particular every task's Async Result and the
transport connection flag — is unchanged. -/
theorem tick_empty_queue_noop (e : AsyncEngine) (ev : NetEvent) (h : e.queue = []) :
    e.tick ev = e := by
  unfold AsyncEngine.tick
  split
  · rfl
  · rename_i x hd rest hq
    rw [h] at hq
    exact absurd hq (by simp)

/-- Witness for C5: a tick on the initial engine changes nothing. -/
theorem tick_empty_queue_noop_witness :
    AsyncEngine.init.tick NetEvent.progress = AsyncEngine.init :=
  tick_empty_queue_noop AsyncEngine.init NetEvent.progress rfl

/-- C1: starting from the initial engine (default capacity 10), over
any sequence of engine steps the queue never holds more than 10 tasks;
and when the queue is full and the newly enqueued task is not an
authentication task, the enqueue fails with `QueueFull`, the newest
arrival is cancelled with code -118, and the queue is left unchanged
(no older queued entry is evicted). -/
theorem enqueue_respects_capacity (ss : List EngineStep) (t : AsyncTask) :
    (AsyncEngine.run AsyncEngine.init ss).queue.length ≤ 10 ∧
    (¬ t.kind = TaskKind.authentication →
      10 ≤ (AsyncEngine.run AsyncEngine.init ss).queue.length →
      ((AsyncEngine.run AsyncEngine.init ss).enqueue t).2 = EnqueueOutcome.queueFull ∧
      ((AsyncEngine.run AsyncEngine.init ss).enqueue t).1.queue =
        (AsyncEngine.run AsyncEngine.init ss).queue ∧
      ((AsyncEngine.run AsyncEngine.init ss).enqueue t).1.reaped =
        (AsyncEngine.run AsyncEngine.init ss).reaped ++ [t.cancelMark] ∧
      t.cancelMark.state = TaskState.cancelled ∧
      t.cancelMark.errorCode = -118) := by
  have hwf := wellFormed_run AsyncEngine.init ss wellFormed_init
  have hcapeq := capacity_run AsyncEngine.init ss
  obtain ⟨h2, hlen, hstream, htail, hqueued⟩ := hwf
  rw [hcapeq] at hlen
  constructor
  · exact hlen
  · intro hta hfull
    have hc : (AsyncEngine.run AsyncEngine.init ss).capacity ≤
        (AsyncEngine.run AsyncEngine.init ss).queue.length := by
      rw [hcapeq]
      exact hfull
    unfold AsyncEngine.enqueue
    rw [if_neg hta, if_pos hc]
    exact ⟨rfl, rfl, rfl, rfl, rfl⟩

/-- An ordinary task used to populate witness queues. -/
def ordTask : AsyncTask := { kind := TaskKind.ordinary }

/-- Ten consecutive ordinary enqueues, filling the default queue. -/
def tenEnqueues : List EngineStep := List.replicate 10 (EngineStep.enq ordTask)

/-- Witness for C1: after ten ordinary enqueues the queue is full and
an eleventh ordinary task is rejected with `QueueFull`, cancelled with
-118, while the queue is unchanged. -/
theorem enqueue_respects_capacity_witness :
    ((AsyncEngine.run AsyncEngine.init tenEnqueues).enqueue ordTask).2 =
      EnqueueOutcome.queueFull ∧
    ((AsyncEngine.run AsyncEngine.init tenEnqueues).enqueue ordTask).1.queue =
      (AsyncEngine.run AsyncEngine.init tenEnqueues).queue ∧
    ((AsyncEngine.run AsyncEngine.init tenEnqueues).enqueue ordTask).1.reaped =
      (AsyncEngine.run AsyncEngine.init tenEnqueues).reaped ++ [ordTask.cancelMark] ∧
    ordTask.cancelMark.state = TaskState.cancelled ∧
    ordTask.cancelMark.errorCode = -118 :=
  (enqueue_respects_capacity tenEnqueues ordTask).2 (by decide) (by decide)

/-- C3: in every reachable state of an Async Client, at most one task
is in the `connecting`/`sending`/`receiving` states, and every task
behind the head of the queue is `queued` or `streaming-idle`. -/
theorem at_most_one_executing (ss : List EngineStep) :
    ((AsyncEngine.run AsyncEngine.init ss).queue.filter
        (fun t => t.state.isExecuting)).length ≤ 1 ∧
    (∀ t ∈ (AsyncEngine.run AsyncEngine.init ss).queue.drop 1,
        t.state = TaskState.queued ∨ t.state = TaskState.streamingIdle) := by
  have hwf := wellFormed_run AsyncEngine.init ss wellFormed_init
  obtain ⟨-, -, -, htail, -⟩ := hwf
  constructor
  · cases hq : (AsyncEngine.run AsyncEngine.init ss).queue with
    | nil => simp
    | cons h rest =>
        rw [List.filter_cons]
        have hrest : rest.filter (fun t => t.state.isExecuting) = [] := by
          rw [List.filter_eq_nil_iff]
          intro a ha
          have hd : a.state.isDormant = true := by
            apply htail a
            rw [hq]
            simpa using ha
          revert hd
          cases a.state <;> simp [TaskState.isDormant, TaskState.isExecuting]
        split
        · rw [hrest]; simp
        · rw [hrest]; simp
  · intro t ht
    have hd := htail t ht
    revert hd
    cases t.state <;> simp [TaskState.isDormant]

/-- A second ordinary task (distinct uid) for witness queues. -/
def ordTask2 : AsyncTask := { kind := TaskKind.ordinary, uid := 2 }

/-- Witness for C3 after two enqueues: the executing count is at most
one and the second task sits dormant behind the head. -/
theorem at_most_one_executing_witness :
    ((AsyncEngine.run AsyncEngine.init
        [EngineStep.enq ordTask, EngineStep.enq ordTask2]).queue.filter
      (fun t => t.state.isExecuting)).length ≤ 1 ∧
    (ordTask2.fresh.state = TaskState.queued ∨
      ordTask2.fresh.state = TaskState.streamingIdle) :=
  ⟨(at_most_one_executing [EngineStep.enq ordTask, EngineStep.enq ordTask2]).1,
   (at_most_one_executing [EngineStep.enq ordTask, EngineStep.enq ordTask2]).2
     ordTask2.fresh (by decide)⟩

/-- C2: when an authentication task is enqueued, after the enqueue's
queue-reordering the authentication task is at position 0; every
previously queued task that is not an active (started) stream —
non-streaming tasks and a still-queued never-started streaming task
alike — is cancelled with code -118 and recorded as removed, and an
active streaming task (one that has left the `queued` state, in
particular one that is executing) instead transitions to
`streaming-idle` and remains in the queue.  The two clauses cover
every previously queued task. -/
theorem auth_enqueue_preempts (e : AsyncEngine) (a : AsyncTask)
    (ha : a.kind = TaskKind.authentication) :
    ((e.enqueue a).1.queue.head? = some a.fresh) ∧
    (∀ t ∈ e.queue, ¬ (t.kind = TaskKind.streaming ∧ ¬ t.state = TaskState.queued) →
        t.cancelMark ∈ (e.enqueue a).1.reaped ∧
        t.cancelMark.state = TaskState.cancelled ∧
        t.cancelMark.errorCode = -118) ∧
    (∀ t ∈ e.queue, t.kind = TaskKind.streaming → ¬ t.state = TaskState.queued →
        { t with state := TaskState.streamingIdle } ∈ (e.enqueue a).1.queue) := by
  unfold AsyncEngine.enqueue
  rw [if_pos ha]
  refine ⟨rfl, ?_, ?_⟩
  · intro t ht hts
    refine ⟨?_, rfl, rfl⟩
    apply List.mem_append.mpr
    right
    apply List.mem_map.mpr
    refine ⟨t, List.mem_filter.mpr ⟨ht, ?_⟩, rfl⟩
    unfold AsyncTask.startedStream AsyncTask.isStreaming
    by_cases hk : t.kind = TaskKind.streaming
    · have hq : t.state = TaskState.queued := by
        by_contra hq
        exact hts ⟨hk, hq⟩
      simp [hk, hq]
    · simp [hk]
  · intro t ht hts hne
    apply List.mem_cons.mpr
    right
    apply List.mem_map.mpr
    refine ⟨t, List.mem_filter.mpr ⟨ht, ?_⟩, ?_⟩
    · unfold AsyncTask.startedStream AsyncTask.isStreaming
      simp [hts, hne]
    · unfold AsyncTask.parkStream AsyncTask.toStreamingIdle
      rw [if_neg hne]

/-- A streaming task mid-reception, for witness queues. -/
def streamTask : AsyncTask :=
  { kind := TaskKind.streaming, state := TaskState.receiving, uid := 7 }

/-- An authentication task for witness queues. -/
def authTask : AsyncTask := { kind := TaskKind.authentication, uid := 9 }

/-- An engine holding an ordinary task and an active stream, for the
C2 witness. -/
def preemptEngine : AsyncEngine := { queue := [ordTask, streamTask] }

/-- A never-started streaming task (still `queued`), for the C2
witness. -/
def queuedStreamTask : AsyncTask := { kind := TaskKind.streaming, uid := 8 }

/-- An engine holding only a never-started streaming task, for the C2
witness. -/
def preemptEngine2 : AsyncEngine := { queue := [queuedStreamTask] }

/-- Witness for C2: enqueuing an authentication task into an engine
holding an ordinary task and an active stream puts the authentication
task at position 0, cancels the ordinary task with -118 and parks the
stream as `streaming-idle` in the queue; a never-started streaming
task is likewise cancelled with -118. -/
theorem auth_enqueue_preempts_witness :
    ((preemptEngine.enqueue authTask).1.queue.head? = some authTask.fresh) ∧
    (ordTask.cancelMark ∈ (preemptEngine.enqueue authTask).1.reaped ∧
      ordTask.cancelMark.errorCode = -118) ∧
    ({ streamTask with state := TaskState.streamingIdle } ∈
      (preemptEngine.enqueue authTask).1.queue) ∧
    (queuedStreamTask.cancelMark ∈ (preemptEngine2.enqueue authTask).1.reaped ∧
      queuedStreamTask.cancelMark.errorCode = -118) :=
  ⟨(auth_enqueue_preempts preemptEngine authTask (by decide)).1,
   ⟨((auth_enqueue_preempts preemptEngine authTask (by decide)).2.1 ordTask
       (by decide) (by decide)).1,
    ((auth_enqueue_preempts preemptEngine authTask (by decide)).2.1 ordTask
       (by decide) (by decide)).2.2⟩,
   (auth_enqueue_preempts preemptEngine authTask (by decide)).2.2 streamTask
     (by decide) (by decide) (by decide),
   ⟨((auth_enqueue_preempts preemptEngine2 authTask (by decide)).2.1 queuedStreamTask
       (by decide) (by decide)).1,
    ((auth_enqueue_preempts preemptEngine2 authTask (by decide)).2.1 queuedStreamTask
       (by decide) (by decide)).2.2⟩⟩

/-- C4: cancelling a queued task by its reference: a target that is not
an already-started stream is transitioned to `cancelled`, its Result
receives code -118, and it is removed from the queue; if it was still
`queued` (never started) it has written zero bytes to the transport; an
actively executing streaming target instead transitions to
`streaming-idle` and remains queued. -/
theorem cancel_queued_task (ss : List EngineStep) (uid : Nat) :
    (∀ t ∈ (AsyncEngine.run AsyncEngine.init ss).queue,
      t.uid = uid → ¬ (t.kind = TaskKind.streaming ∧ ¬ t.state = TaskState.queued) →
        t.cancelMark ∈ ((AsyncEngine.run AsyncEngine.init ss).cancelTask uid).reaped ∧
        t.cancelMark.state = TaskState.cancelled ∧
        t.cancelMark.errorCode = -118 ∧
        (t.state = TaskState.queued → t.cancelMark.sent = 0)) ∧
    (∀ t ∈ (AsyncEngine.run AsyncEngine.init ss).queue,
      t.uid = uid → t.kind = TaskKind.streaming → t.state.isExecuting = true →
        t.toStreamingIdle ∈ ((AsyncEngine.run AsyncEngine.init ss).cancelTask uid).queue) ∧
    (∀ u ∈ ((AsyncEngine.run AsyncEngine.init ss).cancelTask uid).queue,
      u.uid = uid → u.kind = TaskKind.streaming ∧ u.state = TaskState.streamingIdle) := by
  have hwf := wellFormed_run AsyncEngine.init ss wellFormed_init
  obtain ⟨-, -, -, -, hqueued⟩ := hwf
  refine ⟨?_, ?_, ?_⟩
  · intro t ht huid hns
    refine ⟨?_, rfl, rfl, fun hq => hqueued t ht hq⟩
    unfold AsyncEngine.cancelTask
    apply List.mem_append.mpr
    right
    apply List.mem_map.mpr
    refine ⟨t, List.mem_filter.mpr ⟨ht, ?_⟩, rfl⟩
    simp only [decide_eq_true_eq]
    exact ⟨huid, hns⟩
  · intro t ht huid hts hex
    unfold AsyncEngine.cancelTask
    apply List.mem_filterMap.mpr
    refine ⟨t, ht, ?_⟩
    have hne : ¬ t.state = TaskState.queued := by
      revert hex
      cases t.state <;> simp [TaskState.isExecuting]
    unfold cancelKeep
    rw [if_pos huid, if_pos ⟨hts, hne⟩]
  · intro u hu huid
    unfold AsyncEngine.cancelTask at hu
    obtain ⟨v, hv, hfv⟩ := List.mem_filterMap.mp hu
    unfold cancelKeep at hfv
    split at hfv
    · rename_i hvu
      split at hfv
      · rename_i hcond
        injection hfv with hfv'
        subst hfv'
        exact ⟨hcond.1, rfl⟩
      · exact absurd hfv (by simp)
    · rename_i hvu
      injection hfv with hfv'
      subst hfv'
      exact absurd huid hvu

/-- A queued ordinary task with uid 5 for the C4 witness. -/
def cancelTarget : AsyncTask := { kind := TaskKind.ordinary, uid := 5 }

/-- Witness for C4: cancelling the queued (never started) task with
uid 5 records it cancelled with code -118 and zero bytes sent. -/
theorem cancel_queued_task_witness :
    cancelTarget.fresh.cancelMark ∈
      ((AsyncEngine.run AsyncEngine.init [EngineStep.enq cancelTarget]).cancelTask 5).reaped ∧
    cancelTarget.fresh.cancelMark.errorCode = -118 ∧
    cancelTarget.fresh.cancelMark.sent = 0 := by
  have h := (cancel_queued_task [EngineStep.enq cancelTarget] 5).1 cancelTarget.fresh
    (by decide) (by decide) (by decide)
  exact ⟨h.1, h.2.2.1, h.2.2.2 (by decide)⟩

/-- C7: every single-task failure representable in the model is
published to that task's caller-visible Result and leaves the engine
usable.  A failure event (`NetEvent.fail c` — a transport error or a
protocol/provider error status alike) while a task is executing
publishes the code `c` into that task's Result (never silently
swallowed) and tears the connection down; on the next tick a failed
non-streaming task — an ordinary task or an authentication task, whose
failure clause is stated explicitly — is reaped from the queue still
carrying the code and never retried, while a failed streaming task
parks in `streaming-idle` and automatically re-enters `connecting` on a
later tick (recovery is automatic only for streaming).  An admission
failure — enqueuing a non-authentication task into a full queue —
synchronously publishes `OperationCancelled` (-118) to the rejected
task's Result with no change to the queue, and the resulting engine is
well formed.  Finally, the engine after any tick (in particular the
failing one) is still well formed, so subsequent enqueue and tick
operations behave as from a normal state. -/
theorem task_failure_surfaced (e : AsyncEngine) (c : Int) (t : AsyncTask)
    (he : e.wellFormed) :
    (∀ h rest, e.queue = h :: rest → h.state.isExecuting = true →
      ((e.tick (NetEvent.fail c)).queue =
        { h with state := TaskState.error, errorCode := c } :: rest) ∧
      ((e.tick (NetEvent.fail c)).connected = false) ∧
      (¬ h.kind = TaskKind.streaming → ∀ ev : NetEvent,
        (((e.tick (NetEvent.fail c)).tick ev).queue = rest ∧
         { h with state := TaskState.error, errorCode := c } ∈
           ((e.tick (NetEvent.fail c)).tick ev).reaped)) ∧
      (h.kind = TaskKind.authentication → ∀ ev : NetEvent,
        { h with state := TaskState.error, errorCode := c } ∈
          ((e.tick (NetEvent.fail c)).tick ev).reaped) ∧
      (h.kind = TaskKind.streaming → ∀ ev : NetEvent,
        ((((e.tick (NetEvent.fail c)).tick ev).queue =
            { h with state := TaskState.streamingIdle, errorCode := c } :: rest) ∧
         ((((e.tick (NetEvent.fail c)).tick ev).tick NetEvent.progress).queue =
            { h with state := TaskState.connecting, errorCode := c } :: rest)))) ∧
    (¬ t.kind = TaskKind.authentication → e.capacity ≤ e.queue.length →
      ((e.enqueue t).2 = EnqueueOutcome.queueFull ∧
       (e.enqueue t).1.queue = e.queue ∧
       t.cancelMark ∈ (e.enqueue t).1.reaped ∧
       t.cancelMark.errorCode = -118 ∧
       (e.enqueue t).1.wellFormed)) ∧
    (∀ ev : NetEvent, (e.tick ev).wellFormed) := by
  refine ⟨?_, ?_, fun ev => wellFormed_tick e ev he⟩
  · intro h rest hq hex
    have hstep : e.tick (NetEvent.fail c) =
        { e with queue := { h with state := TaskState.error, errorCode := c } :: rest,
                 connected := false } := by
      unfold AsyncEngine.tick
      rw [hq]
      dsimp only
      revert hex
      cases hst : h.state <;> intro hex <;>
        first
          | rfl
          | simp [TaskState.isExecuting] at hex
    have hreap : ¬ h.kind = TaskKind.streaming → ∀ ev : NetEvent,
        (((e.tick (NetEvent.fail c)).tick ev).queue = rest ∧
         { h with state := TaskState.error, errorCode := c } ∈
           ((e.tick (NetEvent.fail c)).tick ev).reaped) := by
      intro hns ev
      rw [hstep]
      constructor
      · show (AsyncEngine.tick _ ev).queue = rest
        unfold AsyncEngine.tick
        dsimp only
        rw [if_neg hns]
      · show _ ∈ (AsyncEngine.tick _ ev).reaped
        unfold AsyncEngine.tick
        dsimp only
        rw [if_neg hns]
        simp
    refine ⟨by rw [hstep], by rw [hstep], hreap, ?_, ?_⟩
    · intro hk ev
      have hns : ¬ h.kind = TaskKind.streaming := by
        rw [hk]
        intro hcontr
        exact nomatch hcontr
      exact (hreap hns ev).2
    · intro hs ev
      have h1 : (e.tick (NetEvent.fail c)).tick ev =
          { e with queue := { h with state := TaskState.streamingIdle, errorCode := c } :: rest,
                   connected := false } := by
        rw [hstep]
        unfold AsyncEngine.tick
        dsimp only
        rw [if_pos hs]
        rfl
      constructor
      · rw [h1]
      · rw [h1]
        unfold AsyncEngine.tick
        dsimp only
  · intro hta hfull
    unfold AsyncEngine.enqueue
    rw [if_neg hta, if_pos hfull]
    refine ⟨rfl, rfl, by simp, rfl, ?_⟩
    exact he

/-- An ordinary task caught mid-connection, for the C7 witness. -/
def connTask : AsyncTask := { kind := TaskKind.ordinary, state := TaskState.connecting }

/-- An engine whose head task is connecting, for the C7 witness. -/
def failEngine : AsyncEngine := { queue := [connTask] }

/-- An authentication task caught mid-connection, for the C7 witness. -/
def authConnTask : AsyncTask :=
  { kind := TaskKind.authentication, state := TaskState.connecting, uid := 4 }

/-- An engine whose head task is an authenticating task, for the C7
witness. -/
def authFailEngine : AsyncEngine := { queue := [authConnTask] }

/-- An engine whose head task is a receiving stream, for the C7
witness. -/
def streamFailEngine : AsyncEngine := { queue := [streamTask] }

/-- Witness for C7 at concrete engines: an ordinary task failing with
-4 is reaped carrying the code; an authentication task failing with -7
is reaped carrying the code; a streaming task failing with -2 parks as
`streaming-idle` and re-enters `connecting`; an eleventh ordinary task
is rejected from a full queue with -118 published and the queue
unchanged; and the failed engine is still well formed. -/
theorem task_failure_surfaced_witness :
    (failEngine.tick (NetEvent.fail (-4))).queue =
      [{ connTask with state := TaskState.error, errorCode := -4 }] ∧
    (failEngine.tick (NetEvent.fail (-4))).connected = false ∧
    ((failEngine.tick (NetEvent.fail (-4))).tick NetEvent.progress).queue = [] ∧
    { connTask with state := TaskState.error, errorCode := -4 } ∈
      ((failEngine.tick (NetEvent.fail (-4))).tick NetEvent.progress).reaped ∧
    { authConnTask with state := TaskState.error, errorCode := -7 } ∈
      ((authFailEngine.tick (NetEvent.fail (-7))).tick NetEvent.progress).reaped ∧
    ((streamFailEngine.tick (NetEvent.fail (-2))).tick NetEvent.progress).queue =
      [{ streamTask with state := TaskState.streamingIdle, errorCode := -2 }] ∧
    (((streamFailEngine.tick (NetEvent.fail (-2))).tick NetEvent.progress).tick
        NetEvent.progress).queue =
      [{ streamTask with state := TaskState.connecting, errorCode := -2 }] ∧
    ((AsyncEngine.run AsyncEngine.init tenEnqueues).enqueue ordTask).2 =
      EnqueueOutcome.queueFull ∧
    ordTask.cancelMark ∈
      ((AsyncEngine.run AsyncEngine.init tenEnqueues).enqueue ordTask).1.reaped ∧
    (failEngine.tick (NetEvent.fail (-4))).wellFormed := by
  have h := task_failure_surfaced failEngine (-4) ordTask
    (by unfold AsyncEngine.wellFormed queueWF; decide)
  have h1 := h.1 connTask [] rfl (by decide)
  have ha := (task_failure_surfaced authFailEngine (-7) ordTask
    (by unfold AsyncEngine.wellFormed queueWF; decide)).1 authConnTask [] rfl (by decide)
  have hs := (task_failure_surfaced streamFailEngine (-2) ordTask
    (by unfold AsyncEngine.wellFormed queueWF; decide)).1 streamTask [] rfl (by decide)
  have hadm := (task_failure_surfaced (AsyncEngine.run AsyncEngine.init tenEnqueues) (-4)
    ordTask (wellFormed_run AsyncEngine.init tenEnqueues wellFormed_init)).2.1
    (by decide) (by decide)
  exact ⟨h1.1, h1.2.1, (h1.2.2.1 (by decide) NetEvent.progress).1,
    (h1.2.2.1 (by decide) NetEvent.progress).2,
    ha.2.2.2.1 (by decide) NetEvent.progress,
    (hs.2.2.2.2 (by decide) NetEvent.progress).1,
    (hs.2.2.2.2 (by decide) NetEvent.progress).2,
    hadm.1, hadm.2.2.1, h.2.2 (NetEvent.fail (-4))⟩
